import Mathlib

/-!
# Verification of the aionotify watcher core

A shallow embedding, in Lean 4, of the three components of the aionotify
repository that the specification describes:

* `aionotify/aioutils.py` — `UnixFileDescriptorStream`, the buffered
  descriptor stream (embedded as `FDStream`);
* the event-frame decoder of `Watcher.__anext__` in `aionotify/base.py`
  (embedded as `anext` over the byte sequence delivered by the stream);
* the `Watcher` state machine of `aionotify/base.py` (embedded as
  `WatcherState` together with one Lean function per public operation).

Python dictionaries are embedded as insertion-ordered association lists
(`alookup`, `aset`, `aerase` mirror `d[k]`, `d[k] = v`, `del d[k]`).
Machine integers are `Nat`/`Int` with explicit reduction modulo `2^32`
where the wire format fixes a width.  The kernel inotify facility
(`LibC.inotify_init` / `inotify_add_watch` / `inotify_rm_watch`) is an
external collaborator; every operation that consults it takes the kernel's
reply (a watch descriptor, or an error code) as an explicit argument, so a
theorem quantifying over that argument covers every possible kernel
behaviour.  Python exceptions are embedded as an `Option WErr` paired with
the state as mutated up to the raise point.
-/

/-! ## Association lists with Python-dict semantics -/

/-- `d[k]` lookup: first (and, with `Nodup` keys, only) binding of `k`. -/
def alookup {α β : Type} [DecidableEq α] : List (α × β) → α → Option β
  | [], _ => none
  | (k, v) :: l, q => if q = k then some v else alookup l q

/-- `d[k] = v` assignment: overwrite in place if present, else append.
This matches Python dicts, which keep insertion order and keep the original
position of an overwritten key. -/
def aset {α β : Type} [DecidableEq α] : List (α × β) → α → β → List (α × β)
  | [], k, v => [(k, v)]
  | (k', v') :: l, k, v => if k = k' then (k, v) :: l else (k', v') :: aset l k v

/-- `del d[k]`: remove the binding of `k` (the first one; with `Nodup` keys
there is at most one). -/
def aerase {α β : Type} [DecidableEq α] : List (α × β) → α → List (α × β)
  | [], _ => []
  | (k, v) :: l, q => if q = k then l else (k, v) :: aerase l q

/-- The keys of an association list are pairwise distinct — the
representation invariant of an embedded Python dict. -/
def keysNodup {α β : Type} (l : List (α × β)) : Prop :=
  (l.map Prod.fst).Nodup

theorem alookup_aset_self {α β : Type} [DecidableEq α] (l : List (α × β)) (k : α) (v : β) :
    alookup (aset l k v) k = some v := by
  induction l with
  | nil => simp [aset, alookup]
  | cons p l ih =>
    obtain ⟨k', v'⟩ := p
    by_cases h : k = k' <;> simp [aset, alookup, h, ih]

theorem alookup_aset_ne {α β : Type} [DecidableEq α] (l : List (α × β)) (k q : α) (v : β)
    (h : q ≠ k) : alookup (aset l k v) q = alookup l q := by
  induction l with
  | nil => simp [aset, alookup, h]
  | cons p l ih =>
    obtain ⟨k', v'⟩ := p
    by_cases hk : k = k'
    · subst hk; simp [aset, alookup, h]
    · by_cases hq : q = k' <;> simp [aset, alookup, hk, hq, ih]

theorem alookup_aerase_ne {α β : Type} [DecidableEq α] (l : List (α × β)) (k q : α)
    (h : q ≠ k) : alookup (aerase l k) q = alookup l q := by
  induction l with
  | nil => simp [aerase]
  | cons p l ih =>
    obtain ⟨k', v'⟩ := p
    by_cases hk : k = k'
    · subst hk; simp [aerase, alookup, h]
    · by_cases hq : q = k' <;> simp [aerase, alookup, hk, hq, ih]

theorem alookup_eq_none_iff {α β : Type} [DecidableEq α] (l : List (α × β)) (k : α) :
    alookup l k = none ↔ ∀ p ∈ l, p.1 ≠ k := by
  induction l with
  | nil => simp [alookup]
  | cons p l ih =>
    obtain ⟨k', v'⟩ := p
    by_cases hk : k = k'
    · subst hk
      simp only [alookup, if_pos rfl]
      constructor
      · intro h; exact Option.noConfusion h
      · intro h; exact absurd rfl (h (k, v') (List.mem_cons_self _ _))
    · simp only [alookup, if_neg hk, List.mem_cons, ih]
      constructor
      · rintro h p (rfl | hp)
        · exact fun hEq => hk hEq.symm
        · exact h p hp
      · intro h p hp
        exact h p (Or.inr hp)

theorem alookup_aerase_self {α β : Type} [DecidableEq α] (l : List (α × β)) (k : α)
    (h : keysNodup l) : alookup (aerase l k) k = none := by
  induction l with
  | nil => simp [aerase, alookup]
  | cons p l ih =>
    obtain ⟨k', v'⟩ := p
    simp only [keysNodup, List.map_cons, List.nodup_cons] at h
    by_cases hk : k = k'
    · subst hk
      simp only [aerase, if_pos rfl]
      rw [alookup_eq_none_iff]
      intro p hp hfst
      exact h.1 (List.mem_map.mpr ⟨p, hp, hfst⟩)
    · simp only [aerase, if_neg hk, alookup]
      exact ih h.2

theorem mem_of_alookup_eq_some {α β : Type} [DecidableEq α] {l : List (α × β)} {k : α} {v : β}
    (h : alookup l k = some v) : (k, v) ∈ l := by
  induction l with
  | nil => simp [alookup] at h
  | cons p l ih =>
    obtain ⟨k', v'⟩ := p
    by_cases hk : k = k'
    · subst hk
      rw [alookup, if_pos rfl] at h
      injection h with h
      subst h
      exact List.mem_cons_self _ _
    · rw [alookup, if_neg hk] at h
      exact List.mem_cons_of_mem _ (ih h)

theorem alookup_eq_some_of_mem {α β : Type} [DecidableEq α] {l : List (α × β)} {k : α} {v : β}
    (hnd : keysNodup l) (h : (k, v) ∈ l) : alookup l k = some v := by
  induction l with
  | nil => simp at h
  | cons p l ih =>
    obtain ⟨k', v'⟩ := p
    simp only [keysNodup, List.map_cons, List.nodup_cons] at hnd
    rcases List.mem_cons.mp h with h | h
    · injection h with h1 h2
      subst h1; subst h2
      simp [alookup]
    · have hk : k ≠ k' := by
        intro hEq
        exact hnd.1 (List.mem_map.mpr ⟨(k, v), h, hEq⟩)
      rw [alookup, if_neg hk]
      exact ih hnd.2 h

theorem alookup_isSome_of_mem {α β : Type} [DecidableEq α] {l : List (α × β)} {p : α × β}
    (h : p ∈ l) : (alookup l p.1).isSome := by
  induction l with
  | nil => simp at h
  | cons q l ih =>
    obtain ⟨k', v'⟩ := q
    by_cases hk : p.1 = k'
    · rw [alookup, if_pos hk]
      rfl
    · rcases List.mem_cons.mp h with h | h
      · subst h; simp at hk
      · rw [alookup, if_neg hk]
        exact ih h

theorem aset_eq_append {α β : Type} [DecidableEq α] {l : List (α × β)} {k : α} (v : β)
    (h : alookup l k = none) : aset l k v = l ++ [(k, v)] := by
  induction l with
  | nil => simp [aset]
  | cons p l ih =>
    obtain ⟨k', v'⟩ := p
    by_cases hk : k = k'
    · simp [alookup, hk] at h
    · simp only [alookup, if_neg hk] at h
      simp [aset, hk, ih h]

theorem aerase_sublist {α β : Type} [DecidableEq α] (l : List (α × β)) (k : α) :
    (aerase l k).Sublist l := by
  induction l with
  | nil => simp [aerase]
  | cons p l ih =>
    obtain ⟨k', v'⟩ := p
    by_cases hk : k = k'
    · simp only [aerase, if_pos hk]
      exact List.sublist_cons_self _ _
    · simp only [aerase, if_neg hk]
      exact List.Sublist.cons₂ _ ih

theorem mem_of_mem_aerase {α β : Type} [DecidableEq α] {l : List (α × β)} {k : α} {p : α × β}
    (h : p ∈ aerase l k) : p ∈ l :=
  (aerase_sublist l k).mem h

theorem mem_aerase_of_mem {α β : Type} [DecidableEq α] {l : List (α × β)} {k : α} {p : α × β}
    (h : p ∈ l) (hk : p.1 ≠ k) : p ∈ aerase l k := by
  induction l with
  | nil => simp at h
  | cons q l ih =>
    obtain ⟨k', v'⟩ := q
    by_cases hq : k = k'
    · subst hq
      simp only [aerase, if_pos rfl]
      rcases List.mem_cons.mp h with h | h
      · subst h; simp at hk
      · exact h
    · simp only [aerase, if_neg hq]
      rcases List.mem_cons.mp h with h | h
      · subst h; exact List.mem_cons_self _ _
      · exact List.mem_cons_of_mem _ (ih h)

theorem keysNodup_aerase {α β : Type} [DecidableEq α] {l : List (α × β)} (k : α)
    (h : keysNodup l) : keysNodup (aerase l k) :=
  ((aerase_sublist l k).map Prod.fst).nodup h

theorem keysNodup_append_fresh {α β : Type} [DecidableEq α] {l : List (α × β)} {k : α} (v : β)
    (hnd : keysNodup l) (h : alookup l k = none) : keysNodup (l ++ [(k, v)]) := by
  rw [keysNodup, List.map_append]
  refine List.Nodup.append hnd (by simp) ?_
  intro a ha hb
  simp only [List.map_cons, List.map_nil, List.mem_singleton] at hb
  obtain ⟨p, hp, hfst⟩ := List.mem_map.mp ha
  rw [hb] at hfst
  exact absurd hfst ((alookup_eq_none_iff l k).mp h p hp)

/-! ## `aionotify/aioutils.py`: `UnixFileDescriptorStream`

The stream owns one Unix descriptor and keeps a chunk buffer `_buf` with a
cursor `_pos`.  `read(nbytes)` refills the buffer from the descriptor only
when the buffer is empty; the bytes supplied by that `os.read` call are the
`refill` argument below.  Bytes are `Nat` values (each `< 256` in any real
run; nothing below depends on that bound). -/

structure FDStream where
  buf : List Nat
  pos : Nat
deriving DecidableEq

/-- `UnixFileDescriptorStream.read` (aioutils.py lines 26-41), translated
line by line.  Note the faithful rendering of line 37: the source writes
`self.pos = 0` — a fresh attribute that no other code reads — instead of
`self._pos = 0`, so when the cursor runs past the end of the buffer the
stored cursor `_pos` keeps its previous value. -/
def FDStream.read (s : FDStream) (refill : List Nat) (nbytes : Nat) : List Nat × FDStream :=
  let buf := if s.buf.isEmpty then refill else s.buf
  let pos := s.pos
  let res := (buf.drop pos).take nbytes
  let pos' := pos + nbytes
  if buf.length ≤ pos' then
    (res, { buf := [], pos := s.pos })
  else
    (res, { buf := buf, pos := pos' })

/-! ## Wire format and the event-frame decoder (`aionotify/base.py`)

`PREFIX = struct.Struct('iIII')`: a 16-byte little-endian header of one
signed and three unsigned 32-bit integers, followed by `name_len` payload
bytes.  `Watcher.__anext__` reads one header, then the payload, resolves
the kernel watch descriptor through `self.aliases`, silently skipping
frames whose descriptor is no longer mapped, and finally strips trailing
NUL bytes from the payload and decodes it as UTF-8 with replacement. -/

/-- Value of four little-endian bytes. -/
def le32 (b0 b1 b2 b3 : Nat) : Nat :=
  b0 + 256 * b1 + 65536 * b2 + 16777216 * b3

/-- Reading of a 32-bit two's-complement value (the `i` of `struct 'iIII'`). -/
def int32ofNat (n : Nat) : Int :=
  if n < 2147483648 then (n : Int) else (n : Int) - 4294967296

/-- Little-endian bytes of an unsigned 32-bit value. -/
def nat32ToLE (n : Nat) : List Nat :=
  [n % 256, n / 256 % 256, n / 65536 % 256, n / 16777216 % 256]

/-- Little-endian bytes of a signed 32-bit value (two's complement). -/
def int32ToLE (i : Int) : List Nat :=
  nat32ToLE (i % 4294967296).toNat

/-- The 16-byte header of the documented wire format (spec section 6):
`{watch_id: int32, flags: uint32, cookie: uint32, name_len: uint32}`. -/
def headerBytes (wd : Int) (flags cookie len : Nat) : List Nat :=
  int32ToLE wd ++ nat32ToLE flags ++ nat32ToLE cookie ++ nat32ToLE len

/-- `PREFIX.unpack` on the first 16 bytes of the input. -/
def parseHeader : List Nat → Int × Nat × Nat × Nat
  | b0 :: b1 :: b2 :: b3 :: b4 :: b5 :: b6 :: b7 ::
    b8 :: b9 :: b10 :: b11 :: b12 :: b13 :: b14 :: b15 :: _ =>
    (int32ofNat (le32 b0 b1 b2 b3), le32 b4 b5 b6 b7, le32 b8 b9 b10 b11, le32 b12 b13 b14 b15)
  | _ => (0, 0, 0, 0)

/-- `path.rstrip(b'\x00')`: strip all trailing NUL bytes. -/
def rstripNull (l : List Nat) : List Nat :=
  (l.reverse.dropWhile (fun b => b == 0)).reverse

/-- Is `b` a UTF-8 continuation byte? -/
def isCont (b : Nat) : Bool :=
  decide (128 ≤ b) && decide (b ≤ 191)

/-- Admissible second byte after the leading byte `b` of a multi-byte
UTF-8 sequence (rejecting overlong forms, surrogates, and values past
U+10FFFF, exactly as a strict UTF-8 decoder does). -/
def validSecond (b c : Nat) : Bool :=
  if b = 224 then decide (160 ≤ c) && decide (c ≤ 191)
  else if b = 237 then decide (128 ≤ c) && decide (c ≤ 159)
  else if b = 240 then decide (144 ≤ c) && decide (c ≤ 191)
  else if b = 244 then decide (128 ≤ c) && decide (c ≤ 143)
  else isCont c

/-- Modelled from the spec: the text-decoding utility used by
`bytes.decode('utf-8', errors="replace")` is an external collaborator
(spec section 1 places "path/string encoding utilities" out of scope).
Total UTF-8 decoding in which each maximal invalid subsequence becomes the
replacement character U+FFFD instead of raising. -/
def utf8DecodeReplace : List Nat → List Char
  | [] => []
  | b :: bs =>
    if b < 128 then Char.ofNat b :: utf8DecodeReplace bs
    else if b < 194 then Char.ofNat 65533 :: utf8DecodeReplace bs
    else if b < 224 then
      match bs with
      | [] => [Char.ofNat 65533]
      | c :: bs' =>
        if isCont c then Char.ofNat ((b - 192) * 64 + (c - 128)) :: utf8DecodeReplace bs'
        else Char.ofNat 65533 :: utf8DecodeReplace (c :: bs')
    else if b < 240 then
      match bs with
      | [] => [Char.ofNat 65533]
      | c :: bs' =>
        if validSecond b c then
          match bs' with
          | [] => [Char.ofNat 65533]
          | d :: bs'' =>
            if isCont d then
              Char.ofNat ((b - 224) * 4096 + (c - 128) * 64 + (d - 128)) :: utf8DecodeReplace bs''
            else Char.ofNat 65533 :: utf8DecodeReplace (d :: bs'')
        else Char.ofNat 65533 :: utf8DecodeReplace (c :: bs')
    else if b < 245 then
      match bs with
      | [] => [Char.ofNat 65533]
      | c :: bs' =>
        if validSecond b c then
          match bs' with
          | [] => [Char.ofNat 65533]
          | d :: bs'' =>
            if isCont d then
              match bs'' with
              | [] => [Char.ofNat 65533]
              | e :: bs''' =>
                if isCont e then
                  Char.ofNat ((b - 240) * 262144 + (c - 128) * 4096 + (d - 128) * 64 + (e - 128)) ::
                    utf8DecodeReplace bs'''
                else Char.ofNat 65533 :: utf8DecodeReplace (e :: bs''')
            else Char.ofNat 65533 :: utf8DecodeReplace (d :: bs'')
        else Char.ofNat 65533 :: utf8DecodeReplace (c :: bs')
    else Char.ofNat 65533 :: utf8DecodeReplace bs

/-- The decoded text of a name payload: strip trailing NUL padding, then
decode (base.py line 163). -/
def decodeName (payload : List Nat) : String :=
  ⟨utf8DecodeReplace (rstripNull payload)⟩

/-- `Event = namedtuple('Event', ['flags', 'cookie', 'name', 'alias'])`.
The Python attribute `alias` is spelt `walias` here because `alias` is a
reserved word in this Lean environment. -/
structure Event where
  flags : Nat
  cookie : Nat
  name : String
  walias : String
deriving DecidableEq

/-- One well-formed wire frame, before serialization. -/
structure Frame where
  wd : Int
  flags : Nat
  cookie : Nat
  payload : List Nat
deriving DecidableEq

/-- Field bounds making a frame representable in the wire format. -/
def WFFrame (f : Frame) : Prop :=
  -2147483648 ≤ f.wd ∧ f.wd < 2147483648 ∧ f.flags < 4294967296 ∧
    f.cookie < 4294967296 ∧ f.payload.length < 4294967296

instance : DecidablePred WFFrame := fun f => by
  unfold WFFrame; infer_instance

/-- Serialization of one frame in the documented wire format. -/
def frameBytes (f : Frame) : List Nat :=
  headerBytes f.wd f.flags f.cookie f.payload.length ++ f.payload

/-- Serialization of a frame sequence: the byte sequence the kernel side
delivers through the descriptor. -/
def framesBytes (fs : List Frame) : List Nat :=
  (fs.map frameBytes).flatten

/-- The event `Watcher.__anext__` builds from a frame whose watch
descriptor resolved to `a`. -/
def mkEvent (f : Frame) (a : String) : Event :=
  { flags := f.flags, cookie := f.cookie, name := decodeName f.payload, walias := a }

/-- `Watcher.__anext__` (base.py lines 145-169) over the byte sequence the
stream delivers: read a 16-byte header, read `name_len` payload bytes, look
the watch descriptor up in `aliases`, silently skip the frame if the
descriptor is unmapped, otherwise return the decoded event and the
remaining bytes.  `none` models the call suspending (or failing on a
malformed tail) instead of returning an event; `fuel` bounds the number of
loop iterations and is irrelevant whenever it is at least the number of
frames available. -/
def anext (al : List (Int × String)) : Nat → List Nat → Option (Event × List Nat)
  | 0, _ => none
  | fuel + 1, bs =>
    if bs.length < 16 then none
    else
      let h := parseHeader bs
      let len := h.2.2.2
      let rest := bs.drop 16
      if rest.length < len then none
      else
        let payload := rest.take len
        let rest2 := rest.drop len
        match alookup al h.1 with
        | none => anext al fuel rest2
        | some a =>
          some ({ flags := h.2.1, cookie := h.2.2.1, name := decodeName payload, walias := a }, rest2)

/-- Repeated iteration of the watcher: collect the events `__anext__`
yields until the input is exhausted. -/
def readEvents (al : List (Int × String)) : Nat → List Nat → List Event
  | 0, _ => []
  | fuel + 1, bs =>
    match anext al bs.length bs with
    | none => []
    | some (e, rest) => e :: readEvents al fuel rest

/-! ## `aionotify/base.py`: the `Watcher` state machine

`requests` is `self.requests` (alias ↦ (path, flags)), `descriptors` is
`self.descriptors` (alias ↦ watch descriptor), `aliasMap` is `self.aliases`
(watch descriptor ↦ alias), `fd` is `self._fd` and `streamOpen` records
whether `self._stream` is set.  A raised Python exception becomes a
`some e : Option WErr` paired with the state as mutated up to the raise. -/

inductive WErr where
  /-- `ValueError` for a duplicate registration alias. -/
  | duplicateAlias
  /-- `ValueError` for an unknown alias passed to `unwatch`. -/
  | unknownAlias
  /-- `IOError` reported for a failed kernel call. -/
  | ioError
  /-- `RuntimeError` for entering the context twice. -/
  | runtimeError
  /-- A failed `assert` statement. -/
  | assertionError
  /-- `KeyError` from `del d[k]` on a missing key. -/
  | keyError
  /-- `AttributeError` from calling a method an object does not have. -/
  | attributeError
deriving DecidableEq

structure WatcherState where
  requests : List (String × String × Nat)
  descriptors : List (String × Int)
  aliasMap : List (Int × String)
  fd : Option Int
  streamOpen : Bool
deriving DecidableEq

/-- `Watcher.closed` (base.py lines 138-140): `self._fd is None`. -/
def closed (s : WatcherState) : Bool :=
  s.fd.isNone

/-- `Watcher._setup_watch_sync` (base.py lines 128-136).  The kernel's
`inotify_add_watch` reply is the argument `wd`; the `path` and `flags`
arguments only feed the kernel call and the error message. -/
def setupWatchSync (s : WatcherState) (a : String) (path : String) (flags : Nat) (wd : Int) :
    WatcherState × Option WErr :=
  if (alookup s.descriptors a).isSome then (s, some WErr.assertionError)
  else if wd < 0 then (s, some WErr.ioError)
  else
    ({ s with descriptors := aset s.descriptors a wd, aliasMap := aset s.aliasMap wd a }, none)

/-- `Watcher._setup_watch` (base.py lines 118-126): same body as the sync
variant, with the kernel call dispatched through `anyio.to_thread.run_sync`
(the offload changes no state and is invisible here). -/
def setupWatch (s : WatcherState) (a : String) (path : String) (flags : Nat) (wd : Int) :
    WatcherState × Option WErr :=
  if (alookup s.descriptors a).isSome then (s, some WErr.assertionError)
  else if wd < 0 then (s, some WErr.ioError)
  else
    ({ s with descriptors := aset s.descriptors a wd, aliasMap := aset s.aliasMap wd a }, none)

/-- `Watcher.watch` (base.py lines 76-90).  `aliasArg` is the keyword
argument `alias`, defaulting to `path`. -/
def watch (s : WatcherState) (path : String) (flags : Nat) (aliasArg : Option String) (wd : Int) :
    WatcherState × Option WErr :=
  let a := aliasArg.getD path
  if (alookup s.requests a).isSome then (s, some WErr.duplicateAlias)
  else
    let s1 := { s with requests := aset s.requests a (path, flags) }
    if s.streamOpen then setupWatchSync s1 a path flags wd else (s1, none)

/-- `Watcher.awatch` (base.py lines 92-104): the async registration path. -/
def awatch (s : WatcherState) (path : String) (flags : Nat) (aliasArg : Option String) (wd : Int) :
    WatcherState × Option WErr :=
  let a := aliasArg.getD path
  if (alookup s.requests a).isSome then (s, some WErr.duplicateAlias)
  else
    let s1 := { s with requests := aset s.requests a (path, flags) }
    if s.streamOpen then setupWatch s1 a path flags wd else (s1, none)

/-- `Watcher.unwatch` (base.py lines 106-116).  `errno` is the reply of the
kernel's `inotify_rm_watch`.  The three `del` statements run in source
order, each raising `KeyError` if its key is missing at that point. -/
def unwatch (s : WatcherState) (a : String) (errno : Int) : WatcherState × Option WErr :=
  match alookup s.descriptors a with
  | none => (s, some WErr.unknownAlias)
  | some wd =>
    if errno ≠ 0 then (s, some WErr.ioError)
    else if (alookup s.requests a).isSome then
      if (alookup s.aliasMap wd).isSome then
        ({ s with
            descriptors := aerase s.descriptors a
            requests := aerase s.requests a
            aliasMap := aerase s.aliasMap wd }, none)
      else
        ({ s with descriptors := aerase s.descriptors a, requests := aerase s.requests a },
          some WErr.keyError)
    else ({ s with descriptors := aerase s.descriptors a }, some WErr.keyError)

/-- The flush loop of `Watcher.__aenter__` (base.py lines 56-57): set up
every pending request in table order, stopping at the first failure.
`oracle` gives the kernel's `inotify_add_watch` reply for each alias. -/
def setupAll (oracle : String → Int) :
    List (String × String × Nat) → WatcherState → WatcherState × Option WErr
  | [], s => (s, none)
  | (a, path, flags) :: rest, s =>
    let r := setupWatch s a path flags (oracle a)
    match r.2 with
    | none => setupAll oracle rest r.1
    | some e => (r.1, some e)

/-- `Watcher.__aenter__` (base.py lines 49-59): refuse a second entry, open
the kernel handle (`newFd` is the `inotify_init` reply) and the stream,
then flush the pending requests. -/
def aenter (s : WatcherState) (newFd : Int) (oracle : String → Int) :
    WatcherState × Option WErr :=
  if s.fd.isSome then (s, some WErr.runtimeError)
  else setupAll oracle s.requests { s with fd := some newFd, streamOpen := true }

/-- `Watcher._close` (base.py lines 67-74), which `__aexit__` invokes
through the deprecated name `close`.  Its first statement evaluates
`self._stream.close()`; `UnixFileDescriptorStream` defines `aclose` but no
`close` (and when the watcher was never started `self._stream` is `None`),
so an `AttributeError` is raised before any state is modified. -/
def close (s : WatcherState) : WatcherState × Option WErr :=
  (s, some WErr.attributeError)

/-- One `__anext__` call on the watcher (base.py lines 145-169), reading
from the byte sequence `bs`: the registration state is consulted only
through `self.aliases` and is never modified. -/
def anextW (s : WatcherState) (fuel : Nat) (bs : List Nat) :
    (Option (Event × List Nat)) × WatcherState :=
  (anext s.aliasMap fuel bs, s)

/-- The invariants of claim C8: dict representation is well formed, the
alias→id and id→alias maps are mutual inverses, and every active alias is
still pending. -/
def WInv (s : WatcherState) : Prop :=
  keysNodup s.requests ∧ keysNodup s.descriptors ∧ keysNodup s.aliasMap ∧
    (∀ p ∈ s.descriptors, alookup s.aliasMap p.2 = some p.1) ∧
    (∀ q ∈ s.aliasMap, alookup s.descriptors q.2 = some q.1) ∧
    (∀ p ∈ s.descriptors, (alookup s.requests p.1).isSome)

instance : DecidablePred WInv := fun s => by
  unfold WInv keysNodup; infer_instance

/-! ## Wire-format lemmas -/

theorem headerBytes_length (wd : Int) (flags cookie len : Nat) :
    (headerBytes wd flags cookie len).length = 16 := by
  simp [headerBytes, int32ToLE, nat32ToLE]

theorem le32_fields (n : Nat) (h : n < 4294967296) :
    le32 (n % 256) (n / 256 % 256) (n / 65536 % 256) (n / 16777216 % 256) = n := by
  unfold le32; omega

theorem int32_roundtrip (wd : Int) (h1 : -2147483648 ≤ wd) (h2 : wd < 2147483648) :
    int32ofNat (le32 ((wd % 4294967296).toNat % 256) ((wd % 4294967296).toNat / 256 % 256)
      ((wd % 4294967296).toNat / 65536 % 256) ((wd % 4294967296).toNat / 16777216 % 256)) = wd := by
  rw [le32_fields _ (by omega)]
  unfold int32ofNat
  split <;> omega

theorem parseHeader_headerBytes (wd : Int) (flags cookie len : Nat) (rest : List Nat)
    (hw1 : -2147483648 ≤ wd) (hw2 : wd < 2147483648) (hf : flags < 4294967296)
    (hc : cookie < 4294967296) (hl : len < 4294967296) :
    parseHeader (headerBytes wd flags cookie len ++ rest) = (wd, flags, cookie, len) := by
  simp only [headerBytes, int32ToLE, nat32ToLE, List.cons_append, List.nil_append, parseHeader]
  rw [Prod.mk.injEq, Prod.mk.injEq, Prod.mk.injEq]
  exact ⟨int32_roundtrip wd hw1 hw2, le32_fields flags hf, le32_fields cookie hc, le32_fields len hl⟩

/-- The frame-level reading of one `__anext__` step, for comparison with
the byte-level `anext`. -/
def anextF (al : List (Int × String)) : List Frame → Option (Event × List Frame)
  | [] => none
  | f :: fs =>
    match alookup al f.wd with
    | none => anextF al fs
    | some a => some (mkEvent f a, fs)

theorem anext_nil (al : List (Int × String)) (fuel : Nat) : anext al fuel [] = none := by
  cases fuel <;> simp [anext]

theorem anext_frame_cons (al : List (Int × String)) (fuel : Nat) (f : Frame) (rest : List Nat)
    (hwf : WFFrame f) :
    anext al (fuel + 1) (frameBytes f ++ rest) =
      match alookup al f.wd with
      | none => anext al fuel rest
      | some a => some (mkEvent f a, rest) := by
  obtain ⟨h1, h2, h3, h4, h5⟩ := hwf
  have hlen : (frameBytes f ++ rest).length = 16 + f.payload.length + rest.length := by
    simp [frameBytes, headerBytes_length]
    omega
  have hassoc : frameBytes f ++ rest =
      headerBytes f.wd f.flags f.cookie f.payload.length ++ (f.payload ++ rest) := by
    simp [frameBytes, List.append_assoc]
  simp only [anext]
  rw [if_neg (by omega)]
  rw [hassoc, parseHeader_headerBytes f.wd f.flags f.cookie f.payload.length _ h1 h2 h3 h4 h5]
  simp only
  rw [List.drop_left' (headerBytes_length f.wd f.flags f.cookie f.payload.length)]
  rw [if_neg (by simp)]
  rw [List.take_left' rfl, List.drop_left' rfl]
  rfl

theorem framesBytes_nil : framesBytes [] = [] := rfl

theorem framesBytes_cons (f : Frame) (fs : List Frame) :
    framesBytes (f :: fs) = frameBytes f ++ framesBytes fs := by
  simp [framesBytes]

theorem length_le_framesBytes_length (fs : List Frame) :
    fs.length ≤ (framesBytes fs).length := by
  induction fs with
  | nil => simp [framesBytes]
  | cons f fs ih =>
    rw [framesBytes_cons, List.length_append, List.length_cons]
    have : 16 ≤ (frameBytes f).length := by
      simp [frameBytes, headerBytes_length]
    omega

theorem anext_framesBytes (al : List (Int × String)) :
    ∀ fs : List Frame, ∀ fuel : Nat, (∀ f ∈ fs, WFFrame f) → fs.length ≤ fuel →
      anext al fuel (framesBytes fs) =
        (anextF al fs).map (fun p => (p.1, framesBytes p.2)) := by
  intro fs
  induction fs with
  | nil =>
    intro fuel _ _
    rw [framesBytes_nil, anext_nil]
    rfl
  | cons f fs ih =>
    intro fuel hwf hfuel
    obtain ⟨fuel, rfl⟩ : ∃ n, fuel = n + 1 := by
      cases fuel
      · simp at hfuel
      · exact ⟨_, rfl⟩
    rw [framesBytes_cons, anext_frame_cons al fuel f _ (hwf f (List.mem_cons_self _ _))]
    cases hal : alookup al f.wd with
    | none =>
      simp only
      rw [ih fuel (fun g hg => hwf g (List.mem_cons_of_mem _ hg)) (by simp at hfuel; omega)]
      simp [anextF, hal]
    | some a =>
      simp [anextF, hal]

theorem anextF_rest_shorter (al : List (Int × String)) :
    ∀ fs fs' : List Frame, ∀ e : Event, anextF al fs = some (e, fs') → fs'.length < fs.length := by
  intro fs
  induction fs with
  | nil => intro fs' e h; simp [anextF] at h
  | cons f fs ih =>
    intro fs' e h
    rw [anextF] at h
    cases hal : alookup al f.wd with
    | none =>
      rw [hal] at h
      have := ih fs' e h
      simp
      omega
    | some a =>
      rw [hal] at h
      injection h with h
      injection h with h1 h2
      subst h2
      simp
  
theorem anextF_rest_mem (al : List (Int × String)) :
    ∀ fs fs' : List Frame, ∀ e : Event, anextF al fs = some (e, fs') →
      ∀ g ∈ fs', g ∈ fs := by
  intro fs
  induction fs with
  | nil => intro fs' e h; simp [anextF] at h
  | cons f fs ih =>
    intro fs' e h g hg
    rw [anextF] at h
    cases hal : alookup al f.wd with
    | none =>
      rw [hal] at h
      exact List.mem_cons_of_mem _ (ih fs' e h g hg)
    | some a =>
      rw [hal] at h
      injection h with h
      injection h with h1 h2
      subst h2
      exact List.mem_cons_of_mem _ hg

theorem filterMap_of_anextF_none (al : List (Int × String)) :
    ∀ fs : List Frame, anextF al fs = none →
      fs.filterMap (fun f => (alookup al f.wd).map (mkEvent f)) = [] := by
  intro fs
  induction fs with
  | nil => intro _; rfl
  | cons f fs ih =>
    intro h
    rw [anextF] at h
    cases hal : alookup al f.wd with
    | none =>
      rw [hal] at h
      simp [List.filterMap_cons, hal, ih h]
    | some a => rw [hal] at h; exact Option.noConfusion h

theorem filterMap_of_anextF_some (al : List (Int × String)) :
    ∀ fs fs' : List Frame, ∀ e : Event, anextF al fs = some (e, fs') →
      fs.filterMap (fun f => (alookup al f.wd).map (mkEvent f)) =
        e :: fs'.filterMap (fun f => (alookup al f.wd).map (mkEvent f)) := by
  intro fs
  induction fs with
  | nil => intro fs' e h; simp [anextF] at h
  | cons f fs ih =>
    intro fs' e h
    rw [anextF] at h
    cases hal : alookup al f.wd with
    | none =>
      rw [hal] at h
      simp [List.filterMap_cons, hal, ih fs' e h]
    | some a =>
      rw [hal] at h
      injection h with h
      injection h with h1 h2
      subst h1; subst h2
      simp [List.filterMap_cons, hal, mkEvent]

theorem readEvents_framesBytes (al : List (Int × String)) :
    ∀ n : Nat, ∀ fs : List Frame, (∀ f ∈ fs, WFFrame f) → fs.length ≤ n →
      readEvents al n (framesBytes fs) =
        fs.filterMap (fun f => (alookup al f.wd).map (mkEvent f)) := by
  intro n
  induction n with
  | zero =>
    intro fs _ hlen
    rw [List.length_eq_zero.mp (Nat.le_zero.mp hlen)]
    rfl
  | succ n ih =>
    intro fs hwf hlen
    rw [readEvents]
    rw [anext_framesBytes al fs (framesBytes fs).length hwf (length_le_framesBytes_length fs)]
    cases hF : anextF al fs with
    | none =>
      simp only [Option.map_none']
      exact (filterMap_of_anextF_none al fs hF).symm
    | some p =>
      obtain ⟨e, fs'⟩ := p
      simp only [Option.map_some']
      rw [ih fs' (fun g hg => hwf g (anextF_rest_mem al fs fs' e hF g hg))
        (by have := anextF_rest_shorter al fs fs' e hF; omega)]
      exact (filterMap_of_anextF_some al fs fs' e hF).symm

/-! ## Watcher state-machine lemmas -/

theorem alookup_append_left {α β : Type} [DecidableEq α] {l : List (α × β)} (m : List (α × β))
    {k : α} {v : β} (h : alookup l k = some v) : alookup (l ++ m) k = some v := by
  induction l with
  | nil => simp [alookup] at h
  | cons p l ih =>
    obtain ⟨k', v'⟩ := p
    by_cases hk : k = k'
    · rw [alookup, if_pos hk] at h
      rw [List.cons_append, alookup, if_pos hk]
      exact h
    · rw [alookup, if_neg hk] at h
      rw [List.cons_append, alookup, if_neg hk]
      exact ih h

theorem alookup_append_right {α β : Type} [DecidableEq α] {l : List (α × β)} (m : List (α × β))
    {k : α} (h : alookup l k = none) : alookup (l ++ m) k = alookup m k := by
  induction l with
  | nil => simp
  | cons p l ih =>
    obtain ⟨k', v'⟩ := p
    by_cases hk : k = k'
    · rw [alookup, if_pos hk] at h
      exact Option.noConfusion h
    · rw [alookup, if_neg hk] at h
      rw [List.cons_append, alookup, if_neg hk]
      exact ih h

theorem aerase_mem_key_ne {α β : Type} [DecidableEq α] {l : List (α × β)} {k : α} {p : α × β}
    (hnd : keysNodup l) (h : p ∈ aerase l k) : p.1 ≠ k := by
  intro hEq
  have h1 : (alookup (aerase l k) p.1).isSome := alookup_isSome_of_mem h
  rw [hEq, alookup_aerase_self l k hnd] at h1
  exact Bool.noConfusion h1

/-- The two rule-setup paths have the same body; the async offload changes
no state. -/
theorem setupWatch_eq_sync : setupWatch = setupWatchSync := rfl

/-- `watch` and `awatch` are the same state transformer. -/
theorem awatch_eq_watch_fn (s : WatcherState) (path : String) (flags : Nat)
    (aliasArg : Option String) (wd : Int) :
    awatch s path flags aliasArg wd = watch s path flags aliasArg wd := by
  unfold awatch watch
  rw [setupWatch_eq_sync]

theorem setupWatch_err_state (s : WatcherState) (a path : String) (flags : Nat) (wd : Int)
    (h : (setupWatch s a path flags wd).2.isSome) : (setupWatch s a path flags wd).1 = s := by
  unfold setupWatch
  unfold setupWatch at h
  by_cases hd : (alookup s.descriptors a).isSome
  · rw [if_pos hd]
  · rw [if_neg hd]
    by_cases hw : wd < 0
    · rw [if_pos hw]
    · rw [if_neg hd, if_neg hw] at h
      exact Bool.noConfusion h

theorem setupWatch_ok_state (s : WatcherState) (a path : String) (flags : Nat) (wd : Int)
    (h : (setupWatch s a path flags wd).2 = none) :
    (setupWatch s a path flags wd).1 =
      { s with descriptors := aset s.descriptors a wd, aliasMap := aset s.aliasMap wd a } := by
  unfold setupWatch
  unfold setupWatch at h
  by_cases hd : (alookup s.descriptors a).isSome
  · rw [if_pos hd] at h
    exact Option.noConfusion h
  · by_cases hw : wd < 0
    · rw [if_neg hd, if_pos hw] at h
      exact Option.noConfusion h
    · rw [if_neg hd, if_neg hw]

theorem setupWatch_requests (s : WatcherState) (a path : String) (flags : Nat) (wd : Int) :
    (setupWatch s a path flags wd).1.requests = s.requests := by
  unfold setupWatch
  by_cases hd : (alookup s.descriptors a).isSome
  · rw [if_pos hd]
  · by_cases hw : wd < 0
    · rw [if_neg hd, if_pos hw]
    · rw [if_neg hd, if_neg hw]

theorem setupWatch_inv (s : WatcherState) (a path : String) (flags : Nat) (wd : Int)
    (hInv : WInv s) (hreq : (alookup s.requests a).isSome)
    (hfresh : alookup s.aliasMap wd = none) :
    WInv (setupWatch s a path flags wd).1 := by
  obtain ⟨h1, h2, h3, h4, h5, h6⟩ := hInv
  unfold setupWatch
  by_cases hd : (alookup s.descriptors a).isSome
  · rw [if_pos hd]
    exact ⟨h1, h2, h3, h4, h5, h6⟩
  · by_cases hw : wd < 0
    · rw [if_neg hd, if_pos hw]
      exact ⟨h1, h2, h3, h4, h5, h6⟩
    · rw [if_neg hd, if_neg hw]
      have hdn : alookup s.descriptors a = none := Option.not_isSome_iff_eq_none.mp hd
      rw [aset_eq_append wd hdn, aset_eq_append a hfresh]
      refine ⟨h1, keysNodup_append_fresh wd h2 hdn, keysNodup_append_fresh a h3 hfresh,
        ?_, ?_, ?_⟩
      · intro p hp
        rcases List.mem_append.mp hp with hp | hp
        · exact alookup_append_left _ (h4 p hp)
        · rw [List.mem_singleton.mp hp]
          rw [alookup_append_right _ hfresh, alookup, if_pos rfl]
      · intro q hq
        rcases List.mem_append.mp hq with hq | hq
        · exact alookup_append_left _ (h5 q hq)
        · rw [List.mem_singleton.mp hq]
          rw [alookup_append_right _ hdn, alookup, if_pos rfl]
      · intro p hp
        rcases List.mem_append.mp hp with hp | hp
        · exact h6 p hp
        · rw [List.mem_singleton.mp hp]
          exact hreq

theorem watch_inv (s : WatcherState) (path : String) (flags : Nat) (aliasArg : Option String)
    (wd : Int) (hInv : WInv s) (hfresh : alookup s.aliasMap wd = none) :
    WInv (watch s path flags aliasArg wd).1 := by
  obtain ⟨h1, h2, h3, h4, h5, h6⟩ := hInv
  unfold watch
  by_cases hdup : (alookup s.requests (aliasArg.getD path)).isSome
  · rw [if_pos hdup]
    exact ⟨h1, h2, h3, h4, h5, h6⟩
  · rw [if_neg hdup]
    have hrn : alookup s.requests (aliasArg.getD path) = none :=
      Option.not_isSome_iff_eq_none.mp hdup
    have hInv1 : WInv { s with requests := aset s.requests (aliasArg.getD path) (path, flags) } := by
      rw [aset_eq_append (path, flags) hrn]
      refine ⟨keysNodup_append_fresh (path, flags) h1 hrn, h2, h3, h4, h5, ?_⟩
      intro p hp
      obtain ⟨v, hv⟩ := Option.isSome_iff_exists.mp (h6 p hp)
      rw [alookup_append_left _ hv]
      rfl
    by_cases hst : s.streamOpen
    · rw [if_pos hst]
      rw [← setupWatch_eq_sync]
      refine setupWatch_inv _ _ _ _ _ hInv1 ?_ hfresh
      rw [alookup_aset_self]
      rfl
    · rw [if_neg hst]
      exact hInv1

theorem awatch_inv (s : WatcherState) (path : String) (flags : Nat) (aliasArg : Option String)
    (wd : Int) (hInv : WInv s) (hfresh : alookup s.aliasMap wd = none) :
    WInv (awatch s path flags aliasArg wd).1 := by
  rw [awatch_eq_watch_fn]
  exact watch_inv s path flags aliasArg wd hInv hfresh

theorem unwatch_inv (s : WatcherState) (a : String) (errno : Int) (hInv : WInv s) :
    WInv (unwatch s a errno).1 := by
  obtain ⟨h1, h2, h3, h4, h5, h6⟩ := hInv
  unfold unwatch
  split
  · exact ⟨h1, h2, h3, h4, h5, h6⟩
  · rename_i wd hd
    by_cases he : errno ≠ 0
    · rw [if_pos he]
      exact ⟨h1, h2, h3, h4, h5, h6⟩
    · rw [if_neg he]
      have hmem : (a, wd) ∈ s.descriptors := mem_of_alookup_eq_some hd
      have hreq : (alookup s.requests a).isSome := h6 (a, wd) hmem
      have ham : alookup s.aliasMap wd = some a := h4 (a, wd) hmem
      rw [if_pos hreq, if_pos (by rw [ham]; rfl)]
      refine ⟨keysNodup_aerase a h1, keysNodup_aerase a h2, keysNodup_aerase wd h3, ?_, ?_, ?_⟩
      · intro p hp
        have hpd : p ∈ s.descriptors := mem_of_mem_aerase hp
        have hpa : p.1 ≠ a := aerase_mem_key_ne h2 hp
        have hpw : p.2 ≠ wd := by
          intro hEq
          have := h4 p hpd
          rw [hEq, ham] at this
          injection this with this
          exact hpa this.symm
        rw [alookup_aerase_ne _ _ _ hpw]
        exact h4 p hpd
      · intro q hq
        have hqa : q ∈ s.aliasMap := mem_of_mem_aerase hq
        have hqw : q.1 ≠ wd := aerase_mem_key_ne h3 hq
        have hqd : q.2 ≠ a := by
          intro hEq
          have := h5 q hqa
          rw [hEq, hd] at this
          injection this with this
          exact hqw this.symm
        rw [alookup_aerase_ne _ _ _ hqd]
        exact h5 q hqa
      · intro p hp
        have hpd : p ∈ s.descriptors := mem_of_mem_aerase hp
        have hpa : p.1 ≠ a := aerase_mem_key_ne h2 hp
        rw [alookup_aerase_ne _ _ _ hpa]
        exact h6 p hpd

theorem setupAll_inv (oracle : String → Int) :
    ∀ rs : List (String × String × Nat), ∀ s : WatcherState, WInv s →
      (∀ r ∈ rs, (alookup s.requests r.1).isSome) →
      (∀ r ∈ rs, alookup s.aliasMap (oracle r.1) = none) →
      (rs.map (fun r => oracle r.1)).Nodup →
      WInv (setupAll oracle rs s).1 := by
  intro rs
  induction rs with
  | nil => intro s hInv _ _ _; exact hInv
  | cons r rest ih =>
    obtain ⟨a, path, flags⟩ := r
    intro s hInv hreq hfresh hinj
    rw [setupAll]
    cases he : (setupWatch s a path flags (oracle a)).2 with
    | some e =>
      simp only [he]
      rw [setupWatch_err_state s a path flags (oracle a) (by rw [he]; rfl)]
      exact hInv
    | none =>
      simp only [he]
      have hok := setupWatch_ok_state s a path flags (oracle a) he
      have hInv' : WInv (setupWatch s a path flags (oracle a)).1 :=
        setupWatch_inv s a path flags (oracle a) hInv
          (hreq (a, path, flags) (List.mem_cons_self _ _))
          (hfresh (a, path, flags) (List.mem_cons_self _ _))
      refine ih (setupWatch s a path flags (oracle a)).1 hInv' ?_ ?_ ?_
      · intro r hr
        rw [setupWatch_requests]
        exact hreq r (List.mem_cons_of_mem _ hr)
      · intro r hr
        rw [hok]
        simp only
        have hda : alookup s.descriptors a = none := by
          unfold setupWatch at he
          by_cases hd : (alookup s.descriptors a).isSome
          · rw [if_pos hd] at he; exact Option.noConfusion he
          · exact Option.not_isSome_iff_eq_none.mp hd
        rw [aset_eq_append a (hfresh (a, path, flags) (List.mem_cons_self _ _))]
        rw [alookup_append_right _ (hfresh r (List.mem_cons_of_mem _ hr))]
        have hne : oracle r.1 ≠ oracle a := by
          simp only [List.map_cons, List.nodup_cons] at hinj
          intro hEq
          exact hinj.1 (by
            rw [← hEq]
            exact List.mem_map.mpr ⟨r, hr, rfl⟩)
        rw [alookup, if_neg hne]
        rfl
      · simp only [List.map_cons, List.nodup_cons] at hinj
        exact hinj.2

theorem aenter_inv (s : WatcherState) (newFd : Int) (oracle : String → Int) (hInv : WInv s)
    (hfresh : ∀ r ∈ s.requests, alookup s.aliasMap (oracle r.1) = none)
    (hinj : (s.requests.map (fun r => oracle r.1)).Nodup) :
    WInv (aenter s newFd oracle).1 := by
  unfold aenter
  by_cases hfd : s.fd.isSome
  · rw [if_pos hfd]
    exact hInv
  · rw [if_neg hfd]
    refine setupAll_inv oracle s.requests _ hInv ?_ hfresh hinj
    intro r hr
    exact alookup_isSome_of_mem hr

theorem setupWatch_fd (s : WatcherState) (a path : String) (flags : Nat) (wd : Int) :
    (setupWatch s a path flags wd).1.fd = s.fd := by
  unfold setupWatch
  by_cases hd : (alookup s.descriptors a).isSome
  · rw [if_pos hd]
  · by_cases hw : wd < 0
    · rw [if_neg hd, if_pos hw]
    · rw [if_neg hd, if_neg hw]

theorem setupAll_fd (oracle : String → Int) :
    ∀ rs : List (String × String × Nat), ∀ s : WatcherState,
      (setupAll oracle rs s).1.fd = s.fd := by
  intro rs
  induction rs with
  | nil => intro s; rfl
  | cons r rest ih =>
    obtain ⟨a, path, flags⟩ := r
    intro s
    rw [setupAll]
    cases he : (setupWatch s a path flags (oracle a)).2 with
    | some e =>
      simp only [he]
      exact setupWatch_fd s a path flags (oracle a)
    | none =>
      simp only [he]
      rw [ih]
      exact setupWatch_fd s a path flags (oracle a)

/-- The flush stops at the first failing request: the requests after it are
never attempted and the state is exactly the state accumulated over the
successful ones. -/
theorem setupAll_break (oracle : String → Int) :
    ∀ rs1 : List (String × String × Nat), ∀ s : WatcherState,
      ∀ a path : String, ∀ flags : Nat, ∀ rs2 : List (String × String × Nat),
      (setupAll oracle rs1 s).2 = none →
      alookup (setupAll oracle rs1 s).1.descriptors a = none →
      oracle a < 0 →
      setupAll oracle (rs1 ++ (a, path, flags) :: rs2) s =
        ((setupAll oracle rs1 s).1, some WErr.ioError) := by
  intro rs1
  induction rs1 with
  | nil =>
    intro s a path flags rs2 _ hnd hbad
    have hnd' : alookup s.descriptors a = none := hnd
    rw [List.nil_append]
    show setupAll oracle ((a, path, flags) :: rs2) s = (s, some WErr.ioError)
    rw [setupAll]
    have hs : setupWatch s a path flags (oracle a) = (s, some WErr.ioError) := by
      unfold setupWatch
      rw [if_neg (by rw [hnd']; simp), if_pos hbad]
    rw [hs]
  | cons r rs1 ih =>
    obtain ⟨b, pb, fb⟩ := r
    intro s a path flags rs2 hok hnd hbad
    rw [setupAll] at hok hnd
    rw [List.cons_append, setupAll, setupAll]
    cases he : (setupWatch s b pb fb (oracle b)).2 with
    | some e =>
      rw [he] at hok
      simp at hok
    | none =>
      rw [he] at hok hnd
      simp only at hok hnd
      simp only [he]
      exact ih (setupWatch s b pb fb (oracle b)).1 a path flags rs2 hok hnd hbad

/-! ## The claims -/

/-- C1.  The claim states that `read(n)` returns exactly `n` bytes whenever
the handle can supply them, and that once a read consumes the buffer to its
end the cursor is back at zero, so the next read returns the first bytes of
the freshly refilled buffer.  The code violates this: line 37 of
aioutils.py assigns `self.pos = 0` (a new, never-read attribute) instead of
`self._pos = 0`, so the cursor keeps its stale value.  Concretely, after
`read(16); read(16)` on a 32-byte buffer the recorded cursor is still 16,
and the next read returns bytes 16..31 of the fresh refill instead of its
first 16 bytes.  A read against a non-empty buffer holding fewer than `n`
remaining bytes also returns fewer than `n` bytes (final conjunct). -/
theorem c1_stream_cursor_not_reset :
    FDStream.read ⟨List.range 32, 0⟩ [] 16 = ((List.range 32).take 16, ⟨List.range 32, 16⟩) ∧
    FDStream.read ⟨List.range 32, 16⟩ [] 16 = ((List.range 32).drop 16, ⟨[], 16⟩) ∧
    (FDStream.read ⟨[], 16⟩ ((List.range 32).map (fun i => i + 64)) 16).1 =
      ((List.range 32).map (fun i => i + 64)).drop 16 ∧
    (FDStream.read ⟨[], 16⟩ ((List.range 32).map (fun i => i + 64)) 16).1 ≠
      ((List.range 32).map (fun i => i + 64)).take 16 ∧
    (FDStream.read ⟨[0, 1, 2, 3, 4, 5, 6, 7, 8, 9], 0⟩ [] 16).1.length = 10 := by
  decide

/-- C2.  The claim states that stop/context-exit succeeds and leaves the
kernel handle and stream released (`closed()` true) with all maps and the
pending-request table cleared.  The code violates this: `_close` calls
`self._stream.close()`, but `UnixFileDescriptorStream` defines only
`aclose`, so every stop raises `AttributeError` before any state change —
the handle stays recorded, `closed()` still reports the pre-stop value, and
no table is cleared.  (Even on the evidently intended path, `_reset` clears
only `descriptors` and `aliases`, never `requests`.) -/
theorem c2_close_always_raises (s : WatcherState) :
    close s = (s, some WErr.attributeError) ∧
    closed (close s).1 = closed s ∧
    (close s).1.requests = s.requests ∧
    (close s).1.descriptors = s.descriptors ∧
    (close s).1.aliasMap = s.aliasMap :=
  ⟨rfl, rfl, rfl, rfl, rfl⟩

/-- C4.  Iterating the watcher yields, in stream order, exactly the decoded
events of the well-formed frames whose kernel watch descriptor is present
in the alias map; a frame with an unmapped descriptor produces no event and
no error, and decoding proceeds with the next frame. -/
theorem c4_iteration_filters_by_alias (al : List (Int × String)) (fs : List Frame)
    (hwf : ∀ f ∈ fs, WFFrame f) :
    readEvents al fs.length (framesBytes fs) =
      fs.filterMap (fun f => (alookup al f.wd).map (mkEvent f)) :=
  readEvents_framesBytes al fs.length fs hwf (Nat.le_refl _)

/-- Witness for C4 at a concrete input: a frame for the unmapped descriptor
2 followed by a frame for the mapped descriptor 1. -/
theorem c4_witness :
    (∀ f ∈ ([⟨2, 5, 6, [66]⟩, ⟨1, 2, 3, [65, 0]⟩] : List Frame), WFFrame f) ∧
    readEvents [(1, "w")] 2 (framesBytes [⟨2, 5, 6, [66]⟩, ⟨1, 2, 3, [65, 0]⟩]) =
      ([⟨2, 5, 6, [66]⟩, ⟨1, 2, 3, [65, 0]⟩] : List Frame).filterMap
        (fun f => (alookup [(1, "w")] f.wd).map (mkEvent f)) :=
  ⟨by decide, c4_iteration_filters_by_alias [(1, "w")] [⟨2, 5, 6, [66]⟩, ⟨1, 2, 3, [65, 0]⟩]
    (by decide)⟩

/-- C5.  Decoding a well-formed frame — a 16-byte header
`{watch_id, flags, cookie, name_len}` in the documented wire format
followed by exactly `name_len` payload bytes — whose watch id is mapped
yields an event carrying the header's `flags` and `cookie` verbatim, and a
name equal to the payload with trailing NUL bytes stripped, decoded by the
total replacing UTF-8 decoder. -/
theorem c5_frame_decode_roundtrip (al : List (Int × String)) (wd : Int) (flags cookie : Nat)
    (payload rest : List Nat) (a : String) (fuel : Nat)
    (hw1 : -2147483648 ≤ wd) (hw2 : wd < 2147483648)
    (hf : flags < 4294967296) (hc : cookie < 4294967296) (hl : payload.length < 4294967296)
    (hal : alookup al wd = some a) :
    anext al (fuel + 1) (headerBytes wd flags cookie payload.length ++ payload ++ rest) =
      some ({ flags := flags, cookie := cookie,
              name := ⟨utf8DecodeReplace (rstripNull payload)⟩, walias := a }, rest) := by
  have h := anext_frame_cons al fuel ⟨wd, flags, cookie, payload⟩ rest ⟨hw1, hw2, hf, hc, hl⟩
  rw [hal] at h
  have hb : frameBytes ⟨wd, flags, cookie, payload⟩ ++ rest =
      headerBytes wd flags cookie payload.length ++ payload ++ rest := by
    rw [frameBytes]
  rw [hb] at h
  exact h

/-- Witness for C5 at a concrete input: payload `"A"` with one byte of NUL
padding, watch id 1 mapped to `"w"`. -/
theorem c5_witness :
    (-2147483648 ≤ (1 : Int) ∧ (1 : Int) < 2147483648 ∧ (2 : Nat) < 4294967296 ∧
      (3 : Nat) < 4294967296 ∧ ([65, 0] : List Nat).length < 4294967296 ∧
      alookup [(1, "w")] 1 = some "w") ∧
    anext [(1, "w")] 1 (headerBytes 1 2 3 ([65, 0] : List Nat).length ++ [65, 0] ++ []) =
      some ({ flags := 2, cookie := 3,
              name := ⟨utf8DecodeReplace (rstripNull [65, 0])⟩, walias := "w" }, []) :=
  ⟨⟨by decide, by decide, by decide, by decide, by decide, by decide⟩,
    c5_frame_decode_roundtrip [(1, "w")] 1 2 3 [65, 0] [] "w" 0
      (by decide) (by decide) (by decide) (by decide) (by decide) (by decide)⟩

/-- C9.  `register_async` (`awatch`) performs exactly the same state
transition and raises exactly the same errors as `register` (`watch`) on
every state and input; the offload of the kernel call to a worker thread is
the only difference in the source and has no effect on state or errors. -/
theorem c9_awatch_equals_watch (s : WatcherState) (path : String) (flags : Nat)
    (aliasArg : Option String) (wd : Int) :
    awatch s path flags aliasArg wd = watch s path flags aliasArg wd :=
  awatch_eq_watch_fn s path flags aliasArg wd

/-- C3, counterexample.  The claim asserts that after a failed start the
kernel handle is released and `closed()` returns true.  On the concrete
idle watcher with one pending request whose kernel add-watch reply is
negative, `__aenter__` raises the I/O error but leaves `_fd` set: `closed`
returns `false`, not `true`. -/
theorem c3_counterexample :
    (aenter ⟨[("a", "p", 8)], [], [], none, false⟩ 3 (fun _ => -1)).2 = some WErr.ioError ∧
    closed (aenter ⟨[("a", "p", 8)], [], [], none, false⟩ 3 (fun _ => -1)).1 = false := by
  decide

/-- C3, amended.  If the kernel add-watch call fails for a pending request
during start, start raises the I/O error without attempting any of the
remaining pending requests (the final state is exactly the state
accumulated over the earlier, successful requests), but the kernel handle
is NOT released: `_fd` keeps the fresh handle, `closed()` returns `false`,
and a second start attempt fails with the usage (already-entered) error. -/
theorem c3_start_failure_keeps_handle (s : WatcherState) (newFd : Int) (oracle : String → Int)
    (rs1 : List (String × String × Nat)) (a path : String) (flags : Nat)
    (rs2 : List (String × String × Nat)) (newFd2 : Int) (oracle2 : String → Int)
    (hfd : s.fd = none)
    (hreq : s.requests = rs1 ++ (a, path, flags) :: rs2)
    (hok : (setupAll oracle rs1 { s with fd := some newFd, streamOpen := true }).2 = none)
    (hnd : alookup (setupAll oracle rs1
      { s with fd := some newFd, streamOpen := true }).1.descriptors a = none)
    (hbad : oracle a < 0) :
    (aenter s newFd oracle).2 = some WErr.ioError ∧
    (aenter s newFd oracle).1 =
      (setupAll oracle rs1 { s with fd := some newFd, streamOpen := true }).1 ∧
    (aenter s newFd oracle).1.fd = some newFd ∧
    closed (aenter s newFd oracle).1 = false ∧
    (aenter (aenter s newFd oracle).1 newFd2 oracle2).2 = some WErr.runtimeError := by
  have hEnter : aenter s newFd oracle =
      ((setupAll oracle rs1 { s with fd := some newFd, streamOpen := true }).1,
        some WErr.ioError) := by
    rw [hreq] at hok hnd
    unfold aenter
    rw [if_neg (by rw [hfd]; simp)]
    rw [hreq]
    exact setupAll_break oracle rs1 _ a path flags rs2 hok hnd hbad
  have hfd' : (aenter s newFd oracle).1.fd = some newFd := by
    rw [hEnter]
    rw [setupAll_fd]
  refine ⟨by rw [hEnter], by rw [hEnter], hfd', ?_, ?_⟩
  · rw [closed, hfd']
    rfl
  · rw [hEnter]
    unfold aenter
    rw [if_pos (by rw [setupAll_fd]; rfl)]

/-- Witness for C3's amended theorem: two pending requests; the kernel
accepts the first (descriptor 5) and rejects the second. -/
theorem c3_witness :
    (aenter ⟨[("a", "p", 1), ("b", "q", 2)], [], [], none, false⟩ 3
        (fun x => if x = "a" then 5 else -1)).2 = some WErr.ioError ∧
    (aenter ⟨[("a", "p", 1), ("b", "q", 2)], [], [], none, false⟩ 3
        (fun x => if x = "a" then 5 else -1)).1 =
      (setupAll (fun x => if x = "a" then 5 else -1) [("a", "p", 1)]
        ⟨[("a", "p", 1), ("b", "q", 2)], [], [], some 3, true⟩).1 ∧
    (aenter ⟨[("a", "p", 1), ("b", "q", 2)], [], [], none, false⟩ 3
        (fun x => if x = "a" then 5 else -1)).1.fd = some 3 ∧
    closed (aenter ⟨[("a", "p", 1), ("b", "q", 2)], [], [], none, false⟩ 3
        (fun x => if x = "a" then 5 else -1)).1 = false ∧
    (aenter (aenter ⟨[("a", "p", 1), ("b", "q", 2)], [], [], none, false⟩ 3
        (fun x => if x = "a" then 5 else -1)).1 7 (fun _ => 9)).2 = some WErr.runtimeError :=
  c3_start_failure_keeps_handle ⟨[("a", "p", 1), ("b", "q", 2)], [], [], none, false⟩ 3
    (fun x => if x = "a" then 5 else -1) [("a", "p", 1)] "b" "q" 2 [] 7 (fun _ => 9)
    rfl rfl (by decide) (by decide) (by decide)

/-- C6.  `unwatch` fails with the unknown-alias error exactly when the
alias is not active; a non-zero kernel remove-watch reply raises the I/O
error with all three maps untouched; on success (and under the reachable
invariant that the alias is still pending and its descriptor still mapped)
the alias's entries are removed from the pending table, the active map and
the reverse map in one step, with no partial removal observable. -/
theorem c6_unwatch_cases (s : WatcherState) (a : String) (errno : Int) :
    ((unwatch s a errno).2 = some WErr.unknownAlias ↔ alookup s.descriptors a = none) ∧
    (alookup s.descriptors a = none → unwatch s a errno = (s, some WErr.unknownAlias)) ∧
    ((alookup s.descriptors a).isSome → errno ≠ 0 →
      unwatch s a errno = (s, some WErr.ioError)) ∧
    (∀ wd : Int, alookup s.descriptors a = some wd → errno = 0 →
      (alookup s.requests a).isSome → (alookup s.aliasMap wd).isSome →
      unwatch s a errno =
        ({ s with
            descriptors := aerase s.descriptors a
            requests := aerase s.requests a
            aliasMap := aerase s.aliasMap wd }, none)) := by
  have hnone : alookup s.descriptors a = none →
      unwatch s a errno = (s, some WErr.unknownAlias) := by
    intro h
    unfold unwatch
    rw [h]
  have hsome : ∀ wd : Int, alookup s.descriptors a = some wd →
      unwatch s a errno =
        (if errno ≠ 0 then (s, some WErr.ioError)
         else if (alookup s.requests a).isSome then
           if (alookup s.aliasMap wd).isSome then
             ({ s with
                 descriptors := aerase s.descriptors a
                 requests := aerase s.requests a
                 aliasMap := aerase s.aliasMap wd }, none)
           else
             ({ s with descriptors := aerase s.descriptors a, requests := aerase s.requests a },
               some WErr.keyError)
         else ({ s with descriptors := aerase s.descriptors a }, some WErr.keyError)) := by
    intro wd h
    unfold unwatch
    rw [h]
  refine ⟨⟨?_, ?_⟩, hnone, ?_, ?_⟩
  · intro h
    cases hd : alookup s.descriptors a with
    | none => rfl
    | some wd =>
      rw [hsome wd hd] at h
      by_cases he : errno ≠ 0
      · rw [if_pos he] at h
        simp at h
      · rw [if_neg he] at h
        by_cases hr : (alookup s.requests a).isSome
        · rw [if_pos hr] at h
          by_cases hm : (alookup s.aliasMap wd).isSome
          · rw [if_pos hm] at h
            simp at h
          · rw [if_neg hm] at h
            simp at h
        · rw [if_neg hr] at h
          simp at h
  · intro h
    rw [hnone h]
  · intro hs he
    obtain ⟨wd, hd⟩ := Option.isSome_iff_exists.mp hs
    rw [hsome wd hd, if_pos he]
  · intro wd hd he0 hr hm
    rw [hsome wd hd, if_neg (fun hne => hne he0), if_pos hr, if_pos hm]

/-- Witness for C6 at a concrete input: one active watch `"a"` with
descriptor 5, kernel reply 0; the success branch removes all three
entries. -/
theorem c6_witness :
    unwatch ⟨[("a", "p", 0)], [("a", 5)], [(5, "a")], some 3, true⟩ "a" 0 =
      ({ (⟨[("a", "p", 0)], [("a", 5)], [(5, "a")], some 3, true⟩ : WatcherState) with
          descriptors := aerase [("a", 5)] "a"
          requests := aerase [("a", "p", 0)] "a"
          aliasMap := aerase [(5, "a")] 5 }, none) :=
  (c6_unwatch_cases ⟨[("a", "p", 0)], [("a", 5)], [(5, "a")], some 3, true⟩ "a" 0).2.2.2 5
    rfl rfl (by decide) (by decide)

/-- C7.  On every watcher state satisfying the reachable invariant that an
active alias is still pending, registering an alias that is already pending
or already active — covering pending+pending, pending+active and
active+active — fails with the duplicate-alias error and leaves the state
unchanged, through both the sync and the async registration path,
regardless of start state. -/
theorem c7_duplicate_alias_always_fails (s : WatcherState) (path : String) (flags : Nat)
    (aliasArg : Option String) (wd wd2 : Int)
    (hsub : ∀ p ∈ s.descriptors, (alookup s.requests p.1).isSome)
    (hdup : (alookup s.requests (aliasArg.getD path)).isSome ∨
      (alookup s.descriptors (aliasArg.getD path)).isSome) :
    watch s path flags aliasArg wd = (s, some WErr.duplicateAlias) ∧
    awatch s path flags aliasArg wd2 = (s, some WErr.duplicateAlias) := by
  have hr : (alookup s.requests (aliasArg.getD path)).isSome := by
    rcases hdup with h | h
    · exact h
    · obtain ⟨wd', hwd⟩ := Option.isSome_iff_exists.mp h
      exact hsub (aliasArg.getD path, wd') (mem_of_alookup_eq_some hwd)
  constructor
  · unfold watch
    rw [if_pos hr]
  · rw [awatch_eq_watch_fn]
    unfold watch
    rw [if_pos hr]

/-- Witness for C7 at a concrete input: alias `"a"` both pending and
active on a started watcher. -/
theorem c7_witness :
    watch ⟨[("a", "p", 0)], [("a", 5)], [(5, "a")], some 3, true⟩ "q" 1 (some "a") 7 =
      (⟨[("a", "p", 0)], [("a", 5)], [(5, "a")], some 3, true⟩, some WErr.duplicateAlias) ∧
    awatch ⟨[("a", "p", 0)], [("a", 5)], [(5, "a")], some 3, true⟩ "q" 1 (some "a") 8 =
      (⟨[("a", "p", 0)], [("a", 5)], [(5, "a")], some 3, true⟩, some WErr.duplicateAlias) :=
  c7_duplicate_alias_always_fails ⟨[("a", "p", 0)], [("a", 5)], [(5, "a")], some 3, true⟩
    "q" 1 (some "a") 7 8 (by decide) (Or.inl (by decide))

/-- C8, counterexample.  The claim asserts that every public operation
preserves the mutual-inverse relation between the alias→id and id→alias
maps.  It fails when the kernel returns a watch id that is already in use —
which the real inotify facility does whenever a second alias is registered
for an already-watched path: registering `"b"` while descriptor 5 is
already bound to `"a"` leaves `descriptors = [a↦5, b↦5]` but
`aliases = [5↦b]`, and the maps are no longer mutual inverses. -/
theorem c8_counterexample :
    WInv ⟨[("a", "p", 0)], [("a", 5)], [(5, "a")], some 3, true⟩ ∧
    ¬ WInv (watch ⟨[("a", "p", 0)], [("a", 5)], [(5, "a")], some 3, true⟩
      "p" 0 (some "b") 5).1 := by
  decide

/-- C8, amended.  Every public operation — register (sync and async),
unregister, start, stop, and iteration — preserves the invariants (well
formed tables, mutually inverse alias↔id maps, every active alias still
pending), provided every kernel add-watch reply consumed by the operation
is an id not already present in the id→alias map (pairwise distinct ids
during start's flush).  Stop preserves them because it raises before
touching any state, and iteration never modifies the registration state at
all. -/
theorem c8_ops_preserve_invariants (s : WatcherState) (hInv : WInv s) :
    (∀ path : String, ∀ flags : Nat, ∀ aliasArg : Option String, ∀ wd : Int,
      alookup s.aliasMap wd = none → WInv (watch s path flags aliasArg wd).1) ∧
    (∀ path : String, ∀ flags : Nat, ∀ aliasArg : Option String, ∀ wd : Int,
      alookup s.aliasMap wd = none → WInv (awatch s path flags aliasArg wd).1) ∧
    (∀ a : String, ∀ errno : Int, WInv (unwatch s a errno).1) ∧
    (∀ newFd : Int, ∀ oracle : String → Int,
      (∀ r ∈ s.requests, alookup s.aliasMap (oracle r.1) = none) →
      (s.requests.map (fun r => oracle r.1)).Nodup →
      WInv (aenter s newFd oracle).1) ∧
    WInv (close s).1 ∧
    (∀ fuel : Nat, ∀ bs : List Nat, (anextW s fuel bs).2 = s ∧ WInv (anextW s fuel bs).2) := by
  refine ⟨?_, ?_, ?_, ?_, hInv, ?_⟩
  · intro path flags aliasArg wd hfresh
    exact watch_inv s path flags aliasArg wd hInv hfresh
  · intro path flags aliasArg wd hfresh
    exact awatch_inv s path flags aliasArg wd hInv hfresh
  · intro a errno
    exact unwatch_inv s a errno hInv
  · intro newFd oracle hfresh hinj
    exact aenter_inv s newFd oracle hInv hfresh hinj
  · intro fuel bs
    exact ⟨rfl, hInv⟩

/-- Witness for C8's amended theorem: a fresh id 7 for a new alias on a
started watcher with one active watch. -/
theorem c8_witness :
    WInv ⟨[("a", "p", 0)], [("a", 5)], [(5, "a")], some 3, true⟩ ∧
    WInv (watch ⟨[("a", "p", 0)], [("a", 5)], [(5, "a")], some 3, true⟩
      "q" 1 (some "b") 7).1 :=
  ⟨by decide, (c8_ops_preserve_invariants ⟨[("a", "p", 0)], [("a", 5)], [(5, "a")], some 3, true⟩
    (by decide)).1 "q" 1 (some "b") 7 (by decide)⟩

/-- C10.  On a started watcher, a registration whose kernel add-watch call
fails raises the I/O error with the alias already recorded in the
pending-request table — the entry added before the kernel call is not
rolled back — while the active maps are unchanged; a retry of the same
registration (sync or async, any kernel reply) then fails with the
duplicate-alias error without reaching the kernel call. -/
theorem c10_failed_add_watch_keeps_request (s : WatcherState) (path : String) (flags : Nat)
    (a : String) (wd wd2 wd3 : Int)
    (hst : s.streamOpen = true)
    (hnew : alookup s.requests a = none)
    (hnd : alookup s.descriptors a = none)
    (hbad : wd < 0) :
    watch s path flags (some a) wd =
      ({ s with requests := aset s.requests a (path, flags) }, some WErr.ioError) ∧
    (watch s path flags (some a) wd).1.descriptors = s.descriptors ∧
    (watch s path flags (some a) wd).1.aliasMap = s.aliasMap ∧
    watch (watch s path flags (some a) wd).1 path flags (some a) wd2 =
      ((watch s path flags (some a) wd).1, some WErr.duplicateAlias) ∧
    awatch (watch s path flags (some a) wd).1 path flags (some a) wd3 =
      ((watch s path flags (some a) wd).1, some WErr.duplicateAlias) := by
  have h1 : watch s path flags (some a) wd =
      ({ s with requests := aset s.requests a (path, flags) }, some WErr.ioError) := by
    unfold watch
    simp only [Option.getD_some]
    rw [if_neg (by rw [hnew]; simp), if_pos hst]
    unfold setupWatchSync
    rw [if_neg (by
      rw [show ({ s with requests := aset s.requests a (path, flags) } :
        WatcherState).descriptors = s.descriptors from rfl, hnd]
      simp), if_pos hbad]
  have h2 : (alookup (watch s path flags (some a) wd).1.requests a).isSome := by
    rw [h1]
    rw [show ((({ s with requests := aset s.requests a (path, flags) } : WatcherState),
      some WErr.ioError)).1.requests = aset s.requests a (path, flags) from rfl]
    rw [alookup_aset_self]
    rfl
  refine ⟨h1, by rw [h1], by rw [h1], ?_, ?_⟩
  · generalize hT : (watch s path flags (some a) wd).1 = t at h2 ⊢
    unfold watch
    simp only [Option.getD_some]
    rw [if_pos h2]
  · rw [awatch_eq_watch_fn]
    generalize hT : (watch s path flags (some a) wd).1 = t at h2 ⊢
    unfold watch
    simp only [Option.getD_some]
    rw [if_pos h2]

/-- Witness for C10 at a concrete input: started empty watcher, kernel
rejects the add-watch call with −1, retry replies 9 and 11. -/
theorem c10_witness :
    watch ⟨[], [], [], some 3, true⟩ "p" 0 (some "x") (-1) =
      ({ (⟨[], [], [], some 3, true⟩ : WatcherState) with
          requests := aset [] "x" ("p", 0) }, some WErr.ioError) ∧
    (watch ⟨[], [], [], some 3, true⟩ "p" 0 (some "x") (-1)).1.descriptors = [] ∧
    (watch ⟨[], [], [], some 3, true⟩ "p" 0 (some "x") (-1)).1.aliasMap = [] ∧
    watch (watch ⟨[], [], [], some 3, true⟩ "p" 0 (some "x") (-1)).1 "p" 0 (some "x") 9 =
      ((watch ⟨[], [], [], some 3, true⟩ "p" 0 (some "x") (-1)).1,
        some WErr.duplicateAlias) ∧
    awatch (watch ⟨[], [], [], some 3, true⟩ "p" 0 (some "x") (-1)).1 "p" 0 (some "x") 11 =
      ((watch ⟨[], [], [], some 3, true⟩ "p" 0 (some "x") (-1)).1,
        some WErr.duplicateAlias) :=
  c10_failed_add_watch_keeps_request ⟨[], [], [], some 3, true⟩ "p" 0 "x" (-1) 9 11
    rfl rfl rfl (by decide)
